import Mathlib

/-!
Verification of the `engine` package of gophie (`src/engine/engines.go`):
the `Movie`/`SearchResult` data model and its lookup helpers, the custom
JSON marshalling of `Movie`, the engine registry (`GetEngines`/`GetEngine`)
and the `movieIndex` correlation helper.

Modelling conventions:
* `net/url.URL` (external collaborator) is opaque to this package; it is
  modelled by its textual rendering, so a Go `*url.URL` becomes
  `Option URL` with `none` standing for the nil pointer.
* Go `(T, error)` returns become pairs with an `Option String` error slot
  (the code only ever produces fixed message strings), or `Except String T`
  where the nil-check pattern makes that the natural shape.
* A nil-pointer dereference panic and a `log.Fatal` exit are both modelled
  as `Option.none` results of the operation concerned; the doc comment of
  each definition says which.
-/

namespace Gophie

/-- Model of `net/url.URL` (external collaborator, opaque to this package):
a resource identifier carried by its textual rendering. -/
structure URL where
  repr : String
deriving DecidableEq

/-- Go `url.URL.String`: the textual rendering of the identifier. -/
def URL.String (u : URL) : String := u.repr

/-- Go `url.Parse` as used when a caller decodes a marshalled URL string back:
recovers the resource identifier whose string form is the given string. -/
def parseURL (s : String) : URL := ⟨s⟩

/-- The `Movie` struct of `engines.go`. A Go `*url.URL` field is `Option URL`
(`none` = nil pointer); `SDownloadLink []*url.URL` is a list of such. -/
structure Movie where
  Index : Int
  Title : String
  CoverPhotoLink : String
  Description : String
  Size : String
  DownloadLink : Option URL
  Year : Int
  IsSeries : Bool
  SDownloadLink : List (Option URL)
  UploadDate : String
  Source : String
deriving DecidableEq

/-- The Go zero value `Movie{}` returned by `GetMovieByTitle` on failure. -/
def Movie.empty : Movie :=
  { Index := 0, Title := "", CoverPhotoLink := "", Description := "",
    Size := "", DownloadLink := none, Year := 0, IsSeries := false,
    SDownloadLink := [], UploadDate := "", Source := "" }

/-- The `SearchResult` struct of `engines.go`. -/
structure SearchResult where
  Query : String
  Movies : List Movie
deriving DecidableEq

/-- Method `SearchResult.Titles`: the Go loop appends each movie title in order,
which is exactly a map over the movie list. -/
def SearchResult.Titles (s : SearchResult) : List String :=
  s.Movies.map (fun movie => movie.Title)

/-- The `for _, movie := range` loop body of `GetMovieByTitle`: first movie
whose title equals `title`, else the zero `Movie` with the error message. -/
def findMovieLoop : List Movie → String → Movie × Option String
  | [], _ => (Movie.empty, some "Movie not Found")
  | movie :: rest, title =>
      if movie.Title = title then (movie, none) else findMovieLoop rest title

/-- Method `SearchResult.GetMovieByTitle`: its `(Movie, error)` return modelled as a
pair with an `Option String` error slot. -/
def SearchResult.GetMovieByTitle (s : SearchResult) (title : String) :
    Movie × Option String :=
  findMovieLoop s.Movies title

/-- The `for index, movie := range` loop of `GetIndexFromTitle`, carrying
the running index: first index whose title matches, else `0` with error. -/
def findIndexLoop : List Movie → String → Nat → Nat × Option String
  | [], _, _ => (0, some "Movie not Found")
  | movie :: rest, title, index =>
      if movie.Title = title then (index, none)
      else findIndexLoop rest title (index + 1)

/-- Method `SearchResult.GetIndexFromTitle`: its `(int, error)` return modelled as a
pair with an `Option String` error slot; the range index starts at 0. -/
def SearchResult.GetIndexFromTitle (s : SearchResult) (title : String) :
    Nat × Option String :=
  findIndexLoop s.Movies title 0

/-- The `MovieJSON` struct of `engines.go`: embeds `Movie` and shadows the two
link fields with their string renderings. -/
structure MovieJSON where
  movie : Movie
  DownloadLink : String
  SDownloadLink : List String
deriving DecidableEq

/-- Calling `(*url.URL).String()` through a possibly-nil pointer: `none` models the
nil-pointer dereference panic. -/
def urlStr : Option URL → Option String
  | none => none
  | some u => some u.String

/-- The `for _, link := range m.SDownloadLink` loop of `Movie.MarshalJSON`,
appending `link.String()` for each element in order; `none` models the
nil-pointer panic raised at the first nil element. -/
def sLinkStrings : List (Option URL) → Option (List String)
  | [] => some []
  | link :: rest =>
      match urlStr link with
      | none => none
      | some str =>
          match sLinkStrings rest with
          | none => none
          | some strs => some (str :: strs)

/-- Method `Movie.MarshalJSON`: builds the `MovieJSON` value whose JSON encoding
the Go code returns; the loop over `SDownloadLink` runs first, then
`m.DownloadLink.String()` is taken. `none` models the nil-pointer panic
(the Go code never reaches its `error` return on these paths). -/
def Movie.MarshalJSON (m : Movie) : Option MovieJSON :=
  match sLinkStrings m.SDownloadLink with
  | none => none
  | some sDownloadLink =>
      match urlStr m.DownloadLink with
      | none => none
      | some d => some { movie := m, DownloadLink := d, SDownloadLink := sDownloadLink }

/-- The two adapter kinds known to the registry. -/
inductive EngineKind where
  | netnaija
  | fzmovies
deriving DecidableEq

/-- An adapter instance: its kind plus an instance id drawn from an
allocation counter, so that distinct constructions are distinguishable
(Go instances are distinct heap pointers). -/
structure Engine where
  kind : EngineKind
  instId : Nat
deriving DecidableEq

/-- Modelled from the spec: `NewNetNaijaEngine` is declared outside
`src/` (per-site adapter file); the spec says the registry "constructs one
instance of each known adapter" eagerly on every call, so construction is
modelled as drawing a fresh instance id from an allocation counter. -/
def NewNetNaijaEngine (alloc : Nat) : Engine × Nat :=
  (⟨EngineKind.netnaija, alloc⟩, alloc + 1)

/-- Modelled from the spec: `NewFzEngine` is declared outside `src/`;
modelled as a fresh allocation, like `NewNetNaijaEngine`. -/
def NewFzEngine (alloc : Nat) : Engine × Nat :=
  (⟨EngineKind.fzmovies, alloc⟩, alloc + 1)

/-- Function `GetEngines`: builds a fresh map with the two constructed adapters
under their lowercase canonical keys. The Go map is modelled as a lookup
function (`none` = key absent, the zero value of a map access); the
allocation counter is threaded through the two constructions. -/
def GetEngines (alloc : Nat) : (String → Option Engine) × Nat :=
  let n := NewNetNaijaEngine alloc
  let f := NewFzEngine n.2
  (fun key =>
      if key = "netnaija" then some n.1
      else if key = "fzmovies" then some f.1
      else none,
    f.2)

/-- Go `strings.ToLower` restricted to its ASCII case mapping (the registry
keys and their casings are ASCII): each byte in `A`..`Z` is shifted to the
corresponding lowercase letter, all other characters are unchanged. -/
def goToLowerChar (c : Char) : Char :=
  if 65 ≤ c.toNat ∧ c.toNat ≤ 90 then Char.ofNat (c.toNat + 32) else c

/-- Go `strings.ToLower` on a whole string (ASCII fragment, see
`goToLowerChar`). -/
def goToLower (s : String) : String := ⟨s.data.map goToLowerChar⟩

/-- Function `GetEngine`: lower-cases the requested name, looks it up in a freshly
built registry, and returns the `"Engine %s Does not exist"` error (with
the name exactly as passed) when the map access yields nil. -/
def GetEngine (engine : String) (alloc : Nat) : Except String Engine × Nat :=
  let m := GetEngines alloc
  match m.1 (goToLower engine) with
  | none => (Except.error ("Engine " ++ engine ++ " Does not exist"), m.2)
  | some e => (Except.ok e, m.2)

/-- The digit-accumulation loop of `strconv.Atoi`/`ParseUint`: each
character must be an ASCII digit, and the value is accumulated in base 10;
`none` models the syntax error on a non-digit character. -/
def digitsVal : List Char → Nat → Option Nat
  | [], acc => some acc
  | c :: rest, acc =>
      if 48 ≤ c.toNat ∧ c.toNat ≤ 57 then
        digitsVal rest (acc * 10 + (c.toNat - 48))
      else none

/-- The digits part of `strconv.ParseUint`: an empty digit list (input that
was only a sign, or empty) is a syntax error, otherwise the accumulation
loop runs. -/
def goParseDigits (l : List Char) : Option Nat :=
  match l with
  | [] => none
  | _ :: _ => digitsVal l 0

/-- Go `strconv.Atoi` (64-bit `int`): a leading `+` or `-` is stripped and
remembered; empty input and an empty string after the sign are syntax
errors; every remaining character must be a digit; values outside the
`int64` range are range errors (Go returns a clamped value together with
`ErrRange`, which is still an error). `none` models any error. -/
def goAtoi (s : String) : Option Int :=
  match s.data with
  | [] => none
  | c :: rest =>
      if c = '-' then
        match goParseDigits rest with
        | none => none
        | some n => if (n : Int) ≤ 2 ^ 63 then some (-(n : Int)) else none
      else if c = '+' then
        match goParseDigits rest with
        | none => none
        | some n => if (n : Int) < 2 ^ 63 then some (n : Int) else none
      else
        match goParseDigits (c :: rest) with
        | none => none
        | some n => if (n : Int) < 2 ^ 63 then some (n : Int) else none

/-- Model of the colly request context (external collaborator): `Ctx.Get`
returns the stored string for a key, and the empty string when the key is
absent — so a context is a total function from keys to strings, with `""`
standing for an absent key. -/
def Ctx : Type := String → String

/-- Function `getMovieIndexFromCtx`: reads the `"movieIndex"` context value and
parses it with `strconv.Atoi`; on a parse error the Go code calls
`log.Fatal`, terminating the process — modelled as `none` (no value is
ever returned on that path). -/
def getMovieIndexFromCtx (ctx : Ctx) : Option Int :=
  match goAtoi (ctx "movieIndex") with
  | none => none
  | some movieIndex => some movieIndex

/-- The ASCII digit character for `d < 10` (used to state that a context
value is the decimal encoding of an integer). -/
def goDigitChar (d : Nat) : Char := Char.ofNat (48 + d)

/-- Decimal digit list of a natural number, most significant first;
fuel-based so that it evaluates by kernel reduction (`fuel > n` suffices,
since the number of digits never exceeds `n + 1`). -/
def natToDigitsAux : Nat → Nat → List Char
  | 0, _ => []
  | fuel + 1, n =>
      if n < 10 then [goDigitChar n]
      else natToDigitsAux fuel (n / 10) ++ [goDigitChar (n % 10)]

/-- Canonical decimal encoding of a natural number. -/
def encodeNat (n : Nat) : String := ⟨natToDigitsAux (n + 1) n⟩

/-- Canonical decimal encoding of an integer (leading `-` when negative),
i.e. what "a string-encoded integer" denotes. -/
def encodeInt (i : Int) : String :=
  if i < 0 then "-" ++ encodeNat i.natAbs else encodeNat i.natAbs

/-- Sample movie used to exercise the lookup helpers. -/
def theMatrix : Movie := { Movie.empty with Title := "The Matrix" }

/-- Second sample movie. -/
def theMatrixReloaded : Movie := { Movie.empty with Title := "The Matrix Reloaded" }

/-- Sample search result with two movies. -/
def matrixResult : SearchResult := ⟨"matrix", [theMatrix, theMatrixReloaded]⟩

/-- Sample fully-scraped series movie used to exercise `MarshalJSON`. -/
def sampleMovie : Movie :=
  { Movie.empty with
    Title := "The Matrix",
    IsSeries := true,
    DownloadLink := some ⟨"http://a/x"⟩,
    SDownloadLink := [some ⟨"http://a/e1"⟩, some ⟨"http://a/e2"⟩] }

/-- The `MovieJSON` value `sampleMovie` marshals to. -/
def sampleMovieJSON : MovieJSON :=
  { movie := sampleMovie,
    DownloadLink := "http://a/x",
    SDownloadLink := ["http://a/e1", "http://a/e2"] }

/-- Case analysis of the `GetMovieByTitle` loop: either some title matches
and the loop returns the movie at the smallest matching index with no
error, or no title matches and it returns the zero movie with the
Not-Found error. -/
theorem findMovieLoop_cases (l : List Movie) (t : String) :
    (∃ i, i < l.length ∧ (l.getD i Movie.empty).Title = t ∧
      (∀ j, j < i → (l.getD j Movie.empty).Title ≠ t) ∧
      findMovieLoop l t = (l.getD i Movie.empty, none)) ∨
    ((∀ m ∈ l, m.Title ≠ t) ∧
      findMovieLoop l t = (Movie.empty, some "Movie not Found")) := by
  induction l with
  | nil => exact Or.inr ⟨by simp, rfl⟩
  | cons m rest ih =>
    by_cases hm : m.Title = t
    · exact Or.inl ⟨0, by simp, by simpa using hm,
        fun j hj => absurd hj (Nat.not_lt_zero j), by simp [findMovieLoop, hm]⟩
    · rcases ih with ⟨i, hi, hit, hmin, heq⟩ | ⟨hall, heq⟩
      · refine Or.inl ⟨i + 1, by simpa using hi, by simpa using hit, ?_, ?_⟩
        · intro j hj
          cases j with
          | zero => simpa using hm
          | succ j => simpa using hmin j (by omega)
        · simpa [findMovieLoop, hm] using heq
      · refine Or.inr ⟨?_, by simpa [findMovieLoop, hm] using heq⟩
        intro x hx
        rcases List.mem_cons.mp hx with h | h
        · exact h ▸ hm
        · exact hall x h

/-- Case analysis of the `GetIndexFromTitle` loop, for any starting value
`k` of the running index: either some title matches and the loop returns
`k` plus the smallest matching offset with no error, or no title matches
and it returns `(0, Not-Found)`. -/
theorem findIndexLoop_cases (l : List Movie) (t : String) :
    ∀ k, (∃ i, i < l.length ∧ (l.getD i Movie.empty).Title = t ∧
      (∀ j, j < i → (l.getD j Movie.empty).Title ≠ t) ∧
      findIndexLoop l t k = (k + i, none)) ∨
    ((∀ m ∈ l, m.Title ≠ t) ∧
      findIndexLoop l t k = (0, some "Movie not Found")) := by
  induction l with
  | nil => exact fun k => Or.inr ⟨by simp, rfl⟩
  | cons m rest ih =>
    intro k
    by_cases hm : m.Title = t
    · exact Or.inl ⟨0, by simp, by simpa using hm,
        fun j hj => absurd hj (Nat.not_lt_zero j), by simp [findIndexLoop, hm]⟩
    · rcases ih (k + 1) with ⟨i, hi, hit, hmin, heq⟩ | ⟨hall, heq⟩
      · refine Or.inl ⟨i + 1, by simpa using hi, by simpa using hit, ?_, ?_⟩
        · intro j hj
          cases j with
          | zero => simpa using hm
          | succ j => simpa using hmin j (by omega)
        · have hstep : findIndexLoop (m :: rest) t k = findIndexLoop rest t (k + 1) := by
            simp [findIndexLoop, hm]
          rw [hstep, heq]
          congr 1
          omega
      · refine Or.inr ⟨?_, by simpa [findIndexLoop, hm] using heq⟩
        intro x hx
        rcases List.mem_cons.mp hx with h | h
        · exact h ▸ hm
        · exact hall x h

/-- A positional read below the length is a member of the list. -/
theorem getD_mem_of_lt (l : List Movie) (i : Nat) (hi : i < l.length) :
    l.getD i Movie.empty ∈ l := by
  rw [List.getD_eq_getElem l Movie.empty hi]
  exact List.getElem_mem hi

/-- C2: `GetMovieByTitle` returns (without error) the movie at the smallest
index whose title equals the argument, under exact case-sensitive string
equality, and returns the Not-Found error exactly when no title matches
(in particular for every title on an empty `SearchResult`). -/
theorem GetMovieByTitle_first_match_or_notfound (s : SearchResult) (t : String) :
    ((∃ m ∈ s.Movies, m.Title = t) →
      ∃ i, i < s.Movies.length ∧ (s.Movies.getD i Movie.empty).Title = t ∧
        (∀ j, j < i → (s.Movies.getD j Movie.empty).Title ≠ t) ∧
        s.GetMovieByTitle t = (s.Movies.getD i Movie.empty, none)) ∧
    ((∀ m ∈ s.Movies, m.Title ≠ t) →
      s.GetMovieByTitle t = (Movie.empty, some "Movie not Found")) := by
  constructor
  · intro hex
    rcases findMovieLoop_cases s.Movies t with h | ⟨hall, _⟩
    · exact h
    · rcases hex with ⟨m, hmem, ht⟩
      exact absurd ht (hall m hmem)
  · intro hall
    rcases findMovieLoop_cases s.Movies t with ⟨i, hi, hit, _, _⟩ | ⟨_, heq⟩
    · exact absurd hit (hall _ (getD_mem_of_lt s.Movies i hi))
    · exact heq

/-- Witness for C2 on the sample data: the second movie is found at
index 1. -/
theorem GetMovieByTitle_first_match_or_notfound_witness :
    ∃ i, i < matrixResult.Movies.length ∧
      (matrixResult.Movies.getD i Movie.empty).Title = "The Matrix Reloaded" ∧
      (∀ j, j < i →
        (matrixResult.Movies.getD j Movie.empty).Title ≠ "The Matrix Reloaded") ∧
      matrixResult.GetMovieByTitle "The Matrix Reloaded" =
        (matrixResult.Movies.getD i Movie.empty, none) :=
  (GetMovieByTitle_first_match_or_notfound matrixResult "The Matrix Reloaded").1
    (by decide)

/-- C3: `GetIndexFromTitle` succeeds exactly when `GetMovieByTitle` does;
on success its index is the smallest index whose title matches, and the
movie returned by `GetMovieByTitle` is the one stored at that index. -/
theorem GetIndexFromTitle_consistent (s : SearchResult) (t : String) :
    ((s.GetIndexFromTitle t).2 = none ↔ (s.GetMovieByTitle t).2 = none) ∧
    ((s.GetIndexFromTitle t).2 = none →
      (s.GetIndexFromTitle t).1 < s.Movies.length ∧
      (s.Movies.getD (s.GetIndexFromTitle t).1 Movie.empty).Title = t ∧
      (∀ j, j < (s.GetIndexFromTitle t).1 →
        (s.Movies.getD j Movie.empty).Title ≠ t) ∧
      (s.GetMovieByTitle t).1 =
        s.Movies.getD (s.GetIndexFromTitle t).1 Movie.empty) := by
  rcases findIndexLoop_cases s.Movies t 0 with ⟨i, hi, hit, hmin, heq⟩ | ⟨hall, heq⟩
  · rcases findMovieLoop_cases s.Movies t with ⟨i2, hi2, hit2, hmin2, heq2⟩ | ⟨hall2, _⟩
    · have hii : i = i2 := by
        rcases Nat.lt_trichotomy i i2 with h | h | h
        · exact absurd hit (hmin2 i h)
        · exact h
        · exact absurd hit2 (hmin i2 h)
      have hidx : s.GetIndexFromTitle t = (i, none) := by simpa using heq
      have hmov : s.GetMovieByTitle t = (s.Movies.getD i Movie.empty, none) := by
        rw [hii]; exact heq2
      refine ⟨by simp [hidx, hmov], fun _ => ?_⟩
      rw [hidx]
      exact ⟨hi, hit, hmin, by rw [hmov]⟩
    · exact absurd hit (hall2 _ (getD_mem_of_lt s.Movies i hi))
  · rcases findMovieLoop_cases s.Movies t with ⟨i2, hi2, hit2, _, _⟩ | ⟨_, heq2⟩
    · exact absurd hit2 (hall _ (getD_mem_of_lt s.Movies i2 hi2))
    · have hidx : s.GetIndexFromTitle t = (0, some "Movie not Found") := heq
      have hmov : s.GetMovieByTitle t = (Movie.empty, some "Movie not Found") := heq2
      refine ⟨by simp [hidx, hmov], fun hnone => ?_⟩
      rw [hidx] at hnone
      simp at hnone

/-- Witness for C3 on the sample data: both lookups succeed at index 1 and
agree. -/
theorem GetIndexFromTitle_consistent_witness :
    (matrixResult.GetIndexFromTitle "The Matrix Reloaded").1 <
      matrixResult.Movies.length ∧
    (matrixResult.Movies.getD (matrixResult.GetIndexFromTitle
      "The Matrix Reloaded").1 Movie.empty).Title = "The Matrix Reloaded" ∧
    (∀ j, j < (matrixResult.GetIndexFromTitle "The Matrix Reloaded").1 →
      (matrixResult.Movies.getD j Movie.empty).Title ≠ "The Matrix Reloaded") ∧
    (matrixResult.GetMovieByTitle "The Matrix Reloaded").1 =
      matrixResult.Movies.getD (matrixResult.GetIndexFromTitle
        "The Matrix Reloaded").1 Movie.empty :=
  (GetIndexFromTitle_consistent matrixResult "The Matrix Reloaded").2 (by decide)

/-- C4: `Titles` has the same length as the movie list, mirrors the titles
positionally, and yields the empty list (not an error) on an empty movie
list. -/
theorem Titles_mirror (s : SearchResult) :
    s.Titles.length = s.Movies.length ∧
    (∀ i, i < s.Movies.length →
      s.Titles.getD i "" = (s.Movies.getD i Movie.empty).Title) ∧
    (s.Movies = [] → s.Titles = []) := by
  refine ⟨by simp [SearchResult.Titles], fun i hi => ?_, fun h => by simp [SearchResult.Titles, h]⟩
  have hi2 : i < s.Titles.length := by simpa [SearchResult.Titles] using hi
  rw [List.getD_eq_getElem s.Titles "" hi2, List.getD_eq_getElem s.Movies Movie.empty hi]
  simp [SearchResult.Titles]

/-- Witness for C4 on the sample data, at index 1. -/
theorem Titles_mirror_witness :
    matrixResult.Titles.getD 1 "" =
      (matrixResult.Movies.getD 1 Movie.empty).Title :=
  (Titles_mirror matrixResult).2.1 1 (by decide)

/-- C10: on no match `GetIndexFromTitle` returns the integer `0` together
with the Not-Found error, and there are inputs where a successful lookup
also returns index `0`, so the integer alone cannot distinguish the two. -/
theorem GetIndexFromTitle_notfound_zero (s : SearchResult) (t : String) :
    ((∀ m ∈ s.Movies, m.Title ≠ t) →
      s.GetIndexFromTitle t = (0, some "Movie not Found")) ∧
    (∃ s1 s2 : SearchResult, ∃ u : String,
      (s1.GetIndexFromTitle u).2 = none ∧
      (s2.GetIndexFromTitle u).2 ≠ none ∧
      (s1.GetIndexFromTitle u).1 = (s2.GetIndexFromTitle u).1) := by
  constructor
  · intro hall
    rcases findIndexLoop_cases s.Movies t 0 with ⟨i, hi, hit, _, _⟩ | ⟨_, heq⟩
    · exact absurd hit (hall _ (getD_mem_of_lt s.Movies i hi))
    · exact heq
  · exact ⟨⟨"", [Movie.empty]⟩, ⟨"", []⟩, "", by decide, by decide, by decide⟩

/-- Witness for C10 on the sample data with an unlisted title. -/
theorem GetIndexFromTitle_notfound_zero_witness :
    matrixResult.GetIndexFromTitle "Inception" = (0, some "Movie not Found") :=
  (GetIndexFromTitle_notfound_zero matrixResult "Inception").1 (by decide)

/-- C1: `GetEngine` is case-insensitive — any string whose lower-casing is
a registered key returns the adapter of that kind (so all casings of one
name return the same adapter identity for the same registry build) — and
any other name yields the error `"Engine %s Does not exist"` with the name
exactly as the caller passed it, not lower-cased. -/
theorem GetEngine_case_insensitive (s : String) (alloc : Nat) :
    (goToLower s = "netnaija" →
      (GetEngine s alloc).1 = Except.ok ⟨EngineKind.netnaija, alloc⟩) ∧
    (goToLower s = "fzmovies" →
      (GetEngine s alloc).1 = Except.ok ⟨EngineKind.fzmovies, alloc + 1⟩) ∧
    (goToLower s ≠ "netnaija" → goToLower s ≠ "fzmovies" →
      (GetEngine s alloc).1 =
        Except.error ("Engine " ++ s ++ " Does not exist")) := by
  refine ⟨fun h => ?_, fun h => ?_, fun h1 h2 => ?_⟩
  · simp [GetEngine, GetEngines, NewNetNaijaEngine, NewFzEngine, h]
  · simp [GetEngine, GetEngines, NewNetNaijaEngine, NewFzEngine, h]
  · simp [GetEngine, GetEngines, NewNetNaijaEngine, NewFzEngine, h1, h2]

/-- Witness for C1: three casings of one registered name return the same
adapter, and an unknown name yields the error naming it verbatim. -/
theorem GetEngine_case_insensitive_witness :
    (GetEngine "NetNaija" 0).1 = Except.ok ⟨EngineKind.netnaija, 0⟩ ∧
    (GetEngine "netnaija" 0).1 = Except.ok ⟨EngineKind.netnaija, 0⟩ ∧
    (GetEngine "NETNAIJA" 0).1 = Except.ok ⟨EngineKind.netnaija, 0⟩ ∧
    (GetEngine "FzMovies" 0).1 = Except.ok ⟨EngineKind.fzmovies, 1⟩ ∧
    (GetEngine "DoesNotExist" 0).1 =
      Except.error "Engine DoesNotExist Does not exist" :=
  ⟨(GetEngine_case_insensitive "NetNaija" 0).1 (by decide),
   (GetEngine_case_insensitive "netnaija" 0).1 (by decide),
   (GetEngine_case_insensitive "NETNAIJA" 0).1 (by decide),
   (GetEngine_case_insensitive "FzMovies" 0).2.1 (by decide),
   (GetEngine_case_insensitive "DoesNotExist" 0).2.2 (by decide) (by decide)⟩

/-- C8: `GetEngines` returns a mapping whose key set is exactly
`{"netnaija", "fzmovies"}`, with one freshly constructed instance of each
adapter per call (two allocations per call), so instances from two
successive calls are always distinct. -/
theorem GetEngines_registry (alloc : Nat) :
    (∀ k, ((GetEngines alloc).1 k).isSome ↔ (k = "netnaija" ∨ k = "fzmovies")) ∧
    (GetEngines alloc).1 "netnaija" = some ⟨EngineKind.netnaija, alloc⟩ ∧
    (GetEngines alloc).1 "fzmovies" = some ⟨EngineKind.fzmovies, alloc + 1⟩ ∧
    (GetEngines alloc).2 = alloc + 2 ∧
    (∀ k k2 e e2, (GetEngines alloc).1 k = some e →
      (GetEngines (GetEngines alloc).2).1 k2 = some e2 →
      e.instId ≠ e2.instId) := by
  refine ⟨fun k => ?_, by simp [GetEngines, NewNetNaijaEngine, NewFzEngine],
    by simp [GetEngines, NewNetNaijaEngine, NewFzEngine],
    by simp [GetEngines, NewNetNaijaEngine, NewFzEngine],
    fun k k2 e e2 h1 h2 => ?_⟩
  · by_cases h1 : k = "netnaija"
    · simp [GetEngines, NewNetNaijaEngine, NewFzEngine, h1]
    · by_cases h2 : k = "fzmovies" <;>
        simp [GetEngines, NewNetNaijaEngine, NewFzEngine, h1, h2]
  · have he : e.instId = alloc ∨ e.instId = alloc + 1 := by
      by_cases hk : k = "netnaija"
      · simp [GetEngines, NewNetNaijaEngine, NewFzEngine, hk] at h1
        left; rw [← h1]
      · by_cases hk2 : k = "fzmovies"
        · simp [GetEngines, NewNetNaijaEngine, NewFzEngine, hk, hk2] at h1
          right; rw [← h1]
        · simp [GetEngines, NewNetNaijaEngine, NewFzEngine, hk, hk2] at h1
    have he2 : e2.instId = alloc + 2 ∨ e2.instId = alloc + 3 := by
      by_cases hk : k2 = "netnaija"
      · simp [GetEngines, NewNetNaijaEngine, NewFzEngine, hk] at h2
        left; rw [← h2]
      · by_cases hk2 : k2 = "fzmovies"
        · simp [GetEngines, NewNetNaijaEngine, NewFzEngine, hk, hk2] at h2
          right; rw [← h2]
        · simp [GetEngines, NewNetNaijaEngine, NewFzEngine, hk, hk2] at h2
    omega

/-- Witness for C8: the freshness conjunct applied to the two calls at
counter `0`, on the `"netnaija"` key. -/
theorem GetEngines_registry_witness :
    (⟨EngineKind.netnaija, 0⟩ : Engine).instId ≠
      (⟨EngineKind.netnaija, 2⟩ : Engine).instId :=
  (GetEngines_registry 0).2.2.2.2 "netnaija" "netnaija"
    ⟨EngineKind.netnaija, 0⟩ ⟨EngineKind.netnaija, 2⟩ (by decide) (by decide)

/-- The link-rendering loop succeeds exactly when every element of the
list is a non-nil pointer. -/
theorem sLinkStrings_isSome_iff (l : List (Option URL)) :
    (sLinkStrings l).isSome ↔ ∀ x ∈ l, x ≠ none := by
  induction l with
  | nil => simp [sLinkStrings]
  | cons link rest ih =>
    cases link with
    | none => simp [sLinkStrings, urlStr]
    | some u =>
      cases hrest : sLinkStrings rest with
      | none => simp [sLinkStrings, urlStr, hrest, ← ih]
      | some strs => simp [sLinkStrings, urlStr, hrest, ← ih]

/-- On success, the link-rendering loop produces exactly the in-order
string renderings of the source links. -/
theorem sLinkStrings_renders (l : List (Option URL)) (out : List String)
    (h : sLinkStrings l = some out) : out.map some = l.map urlStr := by
  induction l generalizing out with
  | nil =>
    simp [sLinkStrings] at h
    simp [← h]
  | cons link rest ih =>
    cases link with
    | none => simp [sLinkStrings, urlStr] at h
    | some u =>
      cases hrest : sLinkStrings rest with
      | none => rw [sLinkStrings] at h; simp [urlStr, hrest] at h
      | some strs =>
        rw [sLinkStrings] at h
        simp [urlStr, hrest] at h
        simp [← h, urlStr, ih strs hrest]

/-- Rendering a list of non-nil links yields their string forms in order. -/
theorem sLinkStrings_map_some (us : List URL) :
    sLinkStrings (us.map some) = some (us.map URL.String) := by
  induction us with
  | nil => simp [sLinkStrings]
  | cons u rest ih => simp [sLinkStrings, urlStr, ih]

/-- Dereferencing a pointer yields a value exactly when it is non-nil. -/
theorem urlStr_isSome_iff (o : Option URL) : (urlStr o).isSome ↔ o ≠ none := by
  cases o <;> simp [urlStr]

/-- Marshalling a movie yields a value exactly when both link renderings
do. -/
theorem MarshalJSON_isSome_decomp (m : Movie) :
    m.MarshalJSON.isSome ↔
      ((sLinkStrings m.SDownloadLink).isSome ∧ (urlStr m.DownloadLink).isSome) := by
  rw [Movie.MarshalJSON]
  cases hs : sLinkStrings m.SDownloadLink with
  | none => simp
  | some strs => cases hd : urlStr m.DownloadLink <;> simp [hd]

/-- C9: `Movie.MarshalJSON` dereferences `DownloadLink` unconditionally, so
it panics (yields no value) on every movie whose `DownloadLink` is nil, and
it is total exactly when `DownloadLink` and every element of
`SDownloadLink` are non-nil. -/
theorem MarshalJSON_nil_panics (m : Movie) :
    (m.DownloadLink = none → m.MarshalJSON = none) ∧
    (m.MarshalJSON.isSome ↔
      (m.DownloadLink ≠ none ∧ ∀ l ∈ m.SDownloadLink, l ≠ none)) := by
  constructor
  · intro h
    rw [Movie.MarshalJSON]
    cases hs : sLinkStrings m.SDownloadLink with
    | none => rfl
    | some strs => simp [h, urlStr]
  · rw [MarshalJSON_isSome_decomp m, sLinkStrings_isSome_iff, urlStr_isSome_iff]
    tauto

/-- Witness for C9: a movie with a nil `DownloadLink` marshals to no
value. -/
theorem MarshalJSON_nil_panics_witness :
    (Movie.empty).MarshalJSON = none :=
  (MarshalJSON_nil_panics Movie.empty).1 (by decide)

/-- C5: on every movie it accepts, `Movie.MarshalJSON` renders
`DownloadLink` as the URL's string form (the field is a plain string, not a
nested object) and `SDownloadLink` as the in-order list of URL strings; and
under the data-model invariant that a non-series movie carries no series
links, that list is empty when the movie is not a series. -/
theorem MarshalJSON_renders_links (m : Movie) (j : MovieJSON)
    (h : m.MarshalJSON = some j) :
    (∃ u, m.DownloadLink = some u ∧ j.DownloadLink = u.String) ∧
    j.SDownloadLink.map some = m.SDownloadLink.map urlStr ∧
    (m.IsSeries = false → m.SDownloadLink = [] → j.SDownloadLink = []) := by
  rw [Movie.MarshalJSON] at h
  cases hs : sLinkStrings m.SDownloadLink with
  | none => rw [hs] at h; exact absurd h (by simp)
  | some strs =>
    rw [hs] at h
    cases hd : m.DownloadLink with
    | none => rw [hd] at h; simp [urlStr] at h
    | some u =>
      rw [hd] at h
      simp [urlStr] at h
      refine ⟨⟨u, rfl, by rw [← h]⟩, ?_, fun _ hnil => ?_⟩
      · rw [← h]
        exact sLinkStrings_renders m.SDownloadLink strs hs
      · rw [hnil] at hs
        rw [← h]
        simpa [sLinkStrings] using hs.symm

/-- Witness for C5: a concrete scraped movie marshals with its link
rendered as a string and its series links in order. -/
theorem MarshalJSON_renders_links_witness :
    (∃ u, sampleMovie.DownloadLink = some u ∧
      sampleMovieJSON.DownloadLink = u.String) ∧
    sampleMovieJSON.SDownloadLink.map some =
      sampleMovie.SDownloadLink.map urlStr ∧
    (sampleMovie.IsSeries = false → sampleMovie.SDownloadLink = [] →
      sampleMovieJSON.SDownloadLink = []) :=
  MarshalJSON_renders_links sampleMovie sampleMovieJSON (by decide)

/-- C6: marshalling a movie with a non-nil `DownloadLink` and a non-empty,
all-non-nil `SDownloadLink` and decoding the URL-string fields back
reproduces the original resource identifiers exactly — byte-identical in
string form and in the same order. -/
theorem MarshalJSON_roundtrip (m : Movie) (u : URL) (us : List URL)
    (j : MovieJSON) (hd : m.DownloadLink = some u)
    (hs : m.SDownloadLink = us.map some) (_hne : us ≠ [])
    (hm : m.MarshalJSON = some j) :
    parseURL j.DownloadLink = u ∧
    j.SDownloadLink.map parseURL = us ∧
    (parseURL j.DownloadLink).String = u.String ∧
    j.SDownloadLink.map (fun str => (parseURL str).String) = us.map URL.String := by
  rw [Movie.MarshalJSON, hs, sLinkStrings_map_some, hd] at hm
  simp [urlStr] at hm
  have hdl : j.DownloadLink = u.String := by rw [← hm]
  have hsl : j.SDownloadLink = us.map URL.String := by rw [← hm]
  refine ⟨?_, ?_, ?_, ?_⟩
  · rw [hdl]; rfl
  · rw [hsl]
    rw [List.map_map]
    apply List.map_id''
    intro x
    rfl
  · rw [hdl]; rfl
  · rw [hsl, List.map_map]
    rfl

/-- Witness for C6 on the sample scraped movie. -/
theorem MarshalJSON_roundtrip_witness :
    parseURL sampleMovieJSON.DownloadLink = (⟨"http://a/x"⟩ : URL) ∧
    sampleMovieJSON.SDownloadLink.map parseURL =
      [(⟨"http://a/e1"⟩ : URL), ⟨"http://a/e2"⟩] ∧
    (parseURL sampleMovieJSON.DownloadLink).String =
      URL.String ⟨"http://a/x"⟩ ∧
    sampleMovieJSON.SDownloadLink.map (fun str => (parseURL str).String) =
      [(⟨"http://a/e1"⟩ : URL), ⟨"http://a/e2"⟩].map URL.String :=
  MarshalJSON_roundtrip sampleMovie ⟨"http://a/x"⟩
    [⟨"http://a/e1"⟩, ⟨"http://a/e2"⟩] sampleMovieJSON
    (by decide) (by decide) (by decide) (by decide)

/-- The character for a decimal digit has the expected code point. -/
theorem goDigitChar_toNat (d : Nat) (hd : d < 10) :
    (goDigitChar d).toNat = 48 + d := by
  interval_cases d <;> rfl

/-- Reading a single digit character accumulates that digit. -/
theorem digitsVal_single (d acc : Nat) (hd : d < 10) :
    digitsVal [goDigitChar d] acc = some (acc * 10 + d) := by
  have h1 := goDigitChar_toNat d hd
  rw [digitsVal, h1, if_pos (by omega), digitsVal]
  congr 1
  omega

/-- Reading a concatenation reads the first part, then the second from the
accumulated value. -/
theorem digitsVal_append (l1 l2 : List Char) (acc : Nat) :
    digitsVal (l1 ++ l2) acc =
      (digitsVal l1 acc).bind (fun v => digitsVal l2 v) := by
  induction l1 generalizing acc with
  | nil => simp [digitsVal]
  | cons c rest ih =>
    by_cases hc : 48 ≤ c.toNat ∧ c.toNat ≤ 57
    · simp [digitsVal, hc, ih]
    · simp [digitsVal, hc]

/-- Reading back the decimal digits of `n` recovers `n` on top of the
(positionally shifted) accumulator. -/
theorem digitsVal_natToDigitsAux :
    ∀ fuel n acc, n < fuel →
      ∃ k, digitsVal (natToDigitsAux fuel n) acc = some (acc * 10 ^ k + n) := by
  intro fuel
  induction fuel with
  | zero => intro n acc h; omega
  | succ fuel ih =>
    intro n acc h
    rw [natToDigitsAux]
    by_cases h10 : n < 10
    · rw [if_pos h10]
      exact ⟨1, by rw [digitsVal_single n acc h10, pow_one]⟩
    · rw [if_neg h10]
      have hdiv : n / 10 < fuel := by
        have := Nat.div_lt_self (by omega : 0 < n) (by omega : (1 : Nat) < 10)
        omega
      obtain ⟨k, hk⟩ := ih (n / 10) acc hdiv
      refine ⟨k + 1, ?_⟩
      rw [digitsVal_append, hk, Option.some_bind,
        digitsVal_single (n % 10) _ (Nat.mod_lt n (by omega))]
      congr 1
      calc (acc * 10 ^ k + n / 10) * 10 + n % 10
          = acc * (10 ^ k * 10) + (10 * (n / 10) + n % 10) := by ring
        _ = acc * 10 ^ (k + 1) + n := by rw [pow_succ, Nat.div_add_mod]

/-- Every character produced by the digit printer is an ASCII digit. -/
theorem natToDigitsAux_digits :
    ∀ fuel n c, c ∈ natToDigitsAux fuel n → 48 ≤ c.toNat ∧ c.toNat ≤ 57 := by
  intro fuel
  induction fuel with
  | zero => intro n c hc; simp [natToDigitsAux] at hc
  | succ fuel ih =>
    intro n c hc
    rw [natToDigitsAux] at hc
    by_cases h10 : n < 10
    · rw [if_pos h10] at hc
      simp at hc
      rw [hc, goDigitChar_toNat n h10]
      omega
    · rw [if_neg h10] at hc
      rcases List.mem_append.mp hc with h | h
      · exact ih (n / 10) c h
      · simp at h
        rw [h, goDigitChar_toNat (n % 10) (Nat.mod_lt n (by omega))]
        omega

/-- The digit printer never returns the empty list (with positive fuel). -/
theorem natToDigitsAux_ne_nil (fuel n : Nat) (h : 0 < fuel) :
    natToDigitsAux fuel n ≠ [] := by
  cases fuel with
  | zero => omega
  | succ fuel =>
    rw [natToDigitsAux]
    by_cases h10 : n < 10
    · rw [if_pos h10]; simp
    · rw [if_neg h10]; simp

/-- Unfolding of `goAtoi` on an explicit character list. -/
theorem goAtoi_mk_cons (c : Char) (rest : List Char) :
    goAtoi ⟨c :: rest⟩ =
      (if c = '-' then
        match goParseDigits rest with
        | none => none
        | some n => if (n : Int) ≤ 2 ^ 63 then some (-(n : Int)) else none
      else if c = '+' then
        match goParseDigits rest with
        | none => none
        | some n => if (n : Int) < 2 ^ 63 then some (n : Int) else none
      else
        match goParseDigits (c :: rest) with
        | none => none
        | some n => if (n : Int) < 2 ^ 63 then some (n : Int) else none) := rfl

/-- Parsing the canonical decimal encoding of an in-range natural number
returns it. -/
theorem goAtoi_encodeNat (n : Nat) (h : (n : Int) < 2 ^ 63) :
    goAtoi (encodeNat n) = some (n : Int) := by
  have hne := natToDigitsAux_ne_nil (n + 1) n (by omega)
  cases hl : natToDigitsAux (n + 1) n with
  | nil => exact absurd hl hne
  | cons c rest =>
    have hcd : 48 ≤ c.toNat ∧ c.toNat ≤ 57 :=
      natToDigitsAux_digits (n + 1) n c (by rw [hl]; exact List.mem_cons_self c rest)
    have hcm : ¬ c = '-' := by
      intro h2
      rw [h2] at hcd
      simp at hcd
    have hcp : ¬ c = '+' := by
      intro h2
      rw [h2] at hcd
      simp at hcd
    obtain ⟨k, hk⟩ := digitsVal_natToDigitsAux (n + 1) n 0 (by omega)
    rw [hl] at hk
    have hpd : goParseDigits (c :: rest) = digitsVal (c :: rest) 0 := rfl
    have hval : 0 * 10 ^ k + n = n := by ring
    rw [encodeNat, hl, goAtoi_mk_cons, if_neg hcm, if_neg hcp, hpd, hk, hval]
    simp
    omega

/-- Parsing the canonical decimal encoding of an in-range integer returns
it: the `strconv.Atoi` round-trip. -/
theorem goAtoi_encodeInt (i : Int) (h1 : -(2 ^ 63) ≤ i) (h2 : i < 2 ^ 63) :
    goAtoi (encodeInt i) = some i := by
  by_cases hneg : i < 0
  · rw [encodeInt, if_pos hneg]
    have hne := natToDigitsAux_ne_nil (i.natAbs + 1) i.natAbs (by omega)
    cases hl : natToDigitsAux (i.natAbs + 1) i.natAbs with
    | nil => exact absurd hl hne
    | cons c rest =>
      have hdata : "-" ++ encodeNat i.natAbs = (⟨'-' :: c :: rest⟩ : String) := by
        rw [encodeNat, hl]
        rfl
      obtain ⟨k, hk⟩ := digitsVal_natToDigitsAux (i.natAbs + 1) i.natAbs 0 (by omega)
      rw [hl] at hk
      have hpd : goParseDigits (c :: rest) = digitsVal (c :: rest) 0 := rfl
      have hval : 0 * 10 ^ k + i.natAbs = i.natAbs := by ring
      rw [hdata, goAtoi_mk_cons, if_pos rfl, hpd, hk, hval]
      have hle : ((i.natAbs : Nat) : Int) ≤ 2 ^ 63 := by omega
      show (if ((i.natAbs : Nat) : Int) ≤ 2 ^ 63
        then some (-((i.natAbs : Nat) : Int)) else none) = some i
      rw [if_pos hle]
      congr 1
      omega
  · rw [encodeInt, if_neg hneg]
    have hcast : ((i.natAbs : Nat) : Int) = i := by omega
    rw [goAtoi_encodeNat i.natAbs (by omega), hcast]

/-- C7: whenever the `"movieIndex"` context value is the decimal encoding
of an (`int64`-range) integer `i`, `getMovieIndexFromCtx` returns exactly
`i`; whenever the value does not parse — in particular when the key is
absent, so the context read yields the empty string — no value is returned
and the fatal path (`log.Fatal`, process termination) is taken instead;
a wrong index is never returned silently. -/
theorem getMovieIndexFromCtx_spec (ctx : Ctx) (i : Int) :
    (ctx "movieIndex" = encodeInt i → -(2 ^ 63) ≤ i → i < 2 ^ 63 →
      getMovieIndexFromCtx ctx = some i) ∧
    (goAtoi (ctx "movieIndex") = none → getMovieIndexFromCtx ctx = none) ∧
    (ctx "movieIndex" = "" → getMovieIndexFromCtx ctx = none) := by
  refine ⟨fun h h1 h2 => ?_, fun h => ?_, fun h => ?_⟩
  · rw [getMovieIndexFromCtx, h, goAtoi_encodeInt i h1 h2]
  · rw [getMovieIndexFromCtx, h]
  · rw [getMovieIndexFromCtx, h]
    rfl

/-- Witness for C7: a context carrying `"7"` yields index 7, and a context
with the key absent takes the fatal path. -/
theorem getMovieIndexFromCtx_spec_witness :
    getMovieIndexFromCtx
        (fun key => if key = "movieIndex" then "7" else "") = some 7 ∧
    getMovieIndexFromCtx (fun _ => "") = none :=
  ⟨(getMovieIndexFromCtx_spec
        (fun key => if key = "movieIndex" then "7" else "") 7).1
      (by decide) (by decide) (by decide),
   (getMovieIndexFromCtx_spec (fun _ => "") 7).2.2 (by decide)⟩

end Gophie
